import Mathlib

/-!
Verification development for the Redshift duplicate-handling job
(`Check_Duplicates.py` and `Remove_Duplicates.py`).

The job operates on tables with a `dateCreated` partition column and a
configured unique-key column.  A row is modelled with those two columns
plus a `payload` field standing for every other column of the table.
All duplicate detection and removal logic in the source is SQL executed
against such a table, so the table is modelled as the list of its rows
and each SQL statement as a function on that list.
-/

/-- A table row: the `dateCreated` partition column, the configured
unique-key column and `payload`, which stands for all remaining columns. -/
structure Row where
  dateCreated : Nat
  key : Nat
  payload : Nat
deriving DecidableEq

/-- A database table, as the list of its rows. -/
abbrev Table := List Row

/-- Number of rows of `t` whose unique-key column equals `k`
(`COUNT(*) OVER (PARTITION BY unique_key)` for a row with key `k`). -/
def keyCount (t : Table) (k : Nat) : Nat :=
  (t.filter fun r => decide (r.key = k)).length

/-- Number of rows of `t` sharing the pair `(dateCreated, unique_key) = (d, k)`
(the `COUNT(*)` of the detector's `GROUP BY dateCreated, unique_key`). -/
def pairCount (t : Table) (d k : Nat) : Nat :=
  (t.filter fun r => decide (r.dateCreated = d ∧ r.key = k)).length

/-- Descending insertion by the first component (the `dateCreated` column):
helper for `sortDesc`. -/
def insertDesc (x : Nat × Nat × Nat) : List (Nat × Nat × Nat) → List (Nat × Nat × Nat)
  | [] => [x]
  | y :: ys => if y.1 ≤ x.1 then x :: y :: ys else y :: insertDesc x ys

/-- Insertion sort by descending first component, modelling the detector's
`ORDER BY dateCreated DESC` (ties may appear in any order, as in SQL). -/
def sortDesc : List (Nat × Nat × Nat) → List (Nat × Nat × Nat)
  | [] => []
  | x :: xs => insertDesc x (sortDesc xs)

/-- The duplicate groups of `t`: one `(dateCreated, key, count)` triple for
each distinct `(dateCreated, key)` pair whose row count is strictly greater
than 1 (`GROUP BY dateCreated, unique_key HAVING COUNT(*) > 1`). -/
def dupGroups (t : Table) : List (Nat × Nat × Nat) :=
  ((t.map fun r => (r.dateCreated, r.key)).dedup).filterMap fun p =>
    if 1 < pairCount t p.1 p.2 then some (p.1, p.2, pairCount t p.1 p.2) else none

/-- The full result set of the duplicate-detection query, ordered by
`dateCreated` descending.  This query is shared verbatim by
`check_for_duplicates` in `Remove_Duplicates.py` and by the inline query
of `get_duplicates_and_alert` in `Check_Duplicates.py`. -/
def dupQuery (t : Table) : List (Nat × Nat × Nat) :=
  sortDesc (dupGroups t)

/-- `check_for_duplicates` (`Remove_Duplicates.py`): runs the detection
query and returns its rows; if the query raises (`detectFails`), the
exception is caught inside the function, the error is logged and mailed,
and `None` is returned. -/
def check_for_duplicates (detectFails : Bool) (t : Table) :
    Option (List (Nat × Nat × Nat)) :=
  if detectFails then none else some (dupQuery t)

/-- The detection query executed against a cursor: it is a plain `SELECT`,
so the resulting table state is the input table, unchanged. -/
def run_check_query (t : Table) : Table × List (Nat × Nat × Nat) :=
  (t, dupQuery t)

/-- A row of the side table `<table>_duplicates` created by removal step 1:
the window columns `total_duplicates` and `duplicate_rn` plus the full
original row (`SELECT *` inside `duplicates_cte`). -/
structure SideRow where
  total_duplicates : Nat
  duplicate_rn : Nat
  row : Row
deriving DecidableEq

/-- The unique-key values of `t` whose partition holds more than one row
(the keys for which `total_duplicates > 1` in removal step 1). -/
def dupKeys (t : Table) : List Nat :=
  ((t.map Row.key).dedup).filter fun k => decide (1 < keyCount t k)

/-- The row of `t` with key `k` that `ROW_NUMBER() OVER (PARTITION BY
unique_key ORDER BY dateCreated)` numbers 1: the row with the least
`dateCreated` in the partition, ties broken by table position (SQL leaves
the tie order unspecified; the embedding fixes first position). -/
def minDateRow : Table → Nat → Option Row
  | [], _ => none
  | r :: rs, k =>
    if r.key = k then
      match minDateRow rs k with
      | none => some r
      | some q => if q.dateCreated < r.dateCreated then some q else some r
    else minDateRow rs k

/-- Removal step 1 (`SELECT * INTO <table>_duplicates FROM duplicates_cte
WHERE total_duplicates > 1 AND duplicate_rn = 1`): one side-table row per
duplicated key, carrying its earliest-`dateCreated` row. -/
def step1_side (t : Table) : List SideRow :=
  (dupKeys t).filterMap fun k =>
    (minDateRow t k).map fun r => ⟨keyCount t k, 1, r⟩

/-- Removal step 2 (`DELETE FROM <table> USING <table>_duplicates WHERE
keys are equal`): every main-table row whose key appears in the side table
is deleted — all copies of the key, not just the extras. -/
def delete_step (t : Table) (side : List SideRow) : Table :=
  t.filter fun r => !(side.any fun sr => decide (sr.row.key = r.key))

/-- Removal step 3 (`ALTER TABLE ... DROP COLUMN total_duplicates/duplicate_rn`
then `INSERT INTO <table> SELECT * FROM <table>_duplicates`): the column
drop is the projection `SideRow.row`, and the insert appends. -/
def reinsert_step (t : Table) (side : List SideRow) : Table :=
  t ++ side.map fun sr => sr.row

/-- The database state seen by the remover: the main table and the side
table `<table>_duplicates` (`none` when that table does not exist). -/
structure DbState where
  main : Table
  side : Option (List SideRow)
deriving DecidableEq

/-- Effect of the committed step-1 transaction on the database state. -/
def stage (s : DbState) : DbState :=
  ⟨s.main, some (step1_side s.main)⟩

/-- Effect of the committed step-2 transaction on the database state. -/
def deleteDups (s : DbState) : DbState :=
  ⟨delete_step s.main (s.side.getD []), s.side⟩

/-- Effect of the committed step-3 transaction on the database state. -/
def reinsert (s : DbState) : DbState :=
  ⟨reinsert_step s.main (s.side.getD []), s.side⟩

/-- Effect of the committed step-4 transaction on the database state. -/
def dropSide (s : DbState) : DbState :=
  ⟨s.main, none⟩

/-- `remove_duplicates_from_table` (`Remove_Duplicates.py`): the four-step
sequence, each step a single `cur.execute` of its own `BEGIN; ...; COMMIT;`
batch.  `failAt = some n` means the statement of step `n` raises before its
`COMMIT`: the handler logs, mails, and issues `ROLLBACK`, which undoes only
the open transaction of the failing step — every earlier step was already
committed — and the remaining steps are skipped.  The returned flag records
whether that `ROLLBACK` was issued. -/
def runRemovalSteps (failAt : Option Nat) (s : DbState) : DbState × Bool :=
  if failAt = some 1 then (s, true)
  else
    let s1 := stage s
    if failAt = some 2 then (s1, true)
    else
      let s2 := deleteDups s1
      if failAt = some 3 then (s2, true)
      else
        let s3 := reinsert s2
        if failAt = some 4 then (s3, true)
        else (dropSide s3, false)

/-- The main table produced by a fully successful run of the four-step
removal sequence on table `t`. -/
def removeResult (t : Table) : Table :=
  reinsert_step (delete_step t (step1_side t)) (step1_side t)

/-- Outcome of processing one configured table section in
`remove_duplicates` (`Remove_Duplicates.py`): final main table, final side
table, whether `remove_duplicates_from_table` was invoked, and whether a
`ROLLBACK` was issued. -/
structure SectionResult where
  main : Table
  side : Option (List SideRow)
  removalRan : Bool
  rollback : Bool
deriving DecidableEq

/-- One iteration of the remover's per-section loop: run
`check_for_duplicates`; Python's `if duplicate_keys:` enters the removal
branch exactly when the result is a non-empty list (`None` and `[]` are
both falsy), otherwise the table is skipped unchanged. -/
def remover_process_section (detectFail : Bool) (failAt : Option Nat) (t : Table) :
    SectionResult :=
  match check_for_duplicates detectFail t with
  | some (_ :: _) =>
    let out := runRemovalSteps failAt ⟨t, none⟩
    ⟨out.1.main, out.1.side, true, out.2⟩
  | _ => ⟨t, none, false, false⟩

/-- A configured table section of the remover run, with the failures its
processing will hit: `detectFail` makes the detection query raise,
`failAt` makes the given removal step raise. -/
structure RemoverSection where
  tbl : Table
  detectFail : Bool
  failAt : Option Nat

/-- The remover's loop over the configured sections (`remove_duplicates`):
every failure inside a section is caught within `check_for_duplicates` or
`remove_duplicates_from_table`, so each section yields a result and the
loop always advances to the next section. -/
def removerRun : List RemoverSection → List SectionResult
  | [] => []
  | s :: rest => remover_process_section s.detectFail s.failAt s.tbl :: removerRun rest

/-- A configured table section as read by the checker:
`{database, table, unique_key, host, replication_task}`. -/
structure TableConfig where
  database : String
  table : String
  unique_key : String
  host : String
  replication_task : String
deriving DecidableEq

/-- An alert dispatched by the checker.  `delivered` records whether the
transport accepted it; a delivery failure is caught inside `send_email` /
`send_slack_alert` and only logged. -/
inductive Alert where
  | email (subject : String) (body : List String) (delivered : Bool)
  | slack (body : List String) (delivered : Bool)
deriving DecidableEq

/-- The per-duplicate-count summary line of `print_duplicate_info`. -/
def affectedLine (n c : Nat) : String :=
  s!"{n} row(s) affected: with {c} duplicates per row"

/-- One step of building `grouped_duplicates`:
`grouped_duplicates.setdefault(duplicate_count, []).append(row_key)` on an
insertion-ordered mapping, modelled as an association list. -/
def addToGroup : List (Nat × List Nat) → Nat → Nat → List (Nat × List Nat)
  | [], c, k => [(c, [k])]
  | (c', ks) :: rest, c, k =>
    if c' = c then (c', ks ++ [k]) :: rest else (c', ks) :: addToGroup rest c k

/-- `grouped_duplicates` (`Check_Duplicates.py`): mapping from duplicate
count to the affected key values, built over the query results in order. -/
def groupedDuplicates (results : List (Nat × Nat × Nat)) : List (Nat × List Nat) :=
  results.foldl (fun m g => addToGroup m g.2.2 g.2.1) []

/-- Lookup in the insertion-ordered mapping. -/
def groupLookup (c : Nat) : List (Nat × List Nat) → Option (List Nat)
  | [] => none
  | (c', ks) :: rest => if c' = c then some ks else groupLookup c rest

/-- The key values of the result rows whose duplicate count is `c`. -/
def keysFor (c : Nat) (results : List (Nat × Nat × Nat)) : List Nat :=
  (results.filter fun g => decide (g.2.2 = c)).map fun g => g.2.1

/-- How one `addToGroup`-fold extends an existing bucket: helper for the
`groupedDuplicates` lookup lemma. -/
def combineGroup (o : Option (List Nat)) (l : List Nat) : Option (List Nat) :=
  match o with
  | some ks => some (ks ++ l)
  | none => if l = [] then none else some l

/-- `print_duplicate_info` (`Check_Duplicates.py`): the returned text,
one list entry per line — the header, then one summary line per entry of
the grouped mapping. -/
def print_duplicate_info (database_name table_name : String)
    (grouped : List (Nat × List Nat)) : List String :=
  s!"Duplicates found in {database_name}.{table_name}:" ::
    grouped.map fun g => affectedLine g.2.length g.1

/-- Subject of the checker's alert email (the wall-clock timestamp the
source appends is outside the embedding). -/
def emailSubject (cfg : TableConfig) : String :=
  s!"Duplicate(s) found in {cfg.database}.{cfg.table}"

/-- Body of the checker's alert email, one list entry per line: the
details block followed by the `print_duplicate_info` text. -/
def buildAlertBody (cfg : TableConfig) (results : List (Nat × Nat × Nat)) :
    List String :=
  [ s!"Duplicate(s) found in {cfg.database}.{cfg.table}",
    "DETAILS:",
    s!"Source Host: {cfg.host}",
    s!"Source Replication Task: {cfg.replication_task}",
    s!"Source Database: {cfg.database}",
    s!"Source Table: {cfg.table}",
    s!"Source Column: {cfg.unique_key}",
    s!"Total number of rows = {results.length}" ]
  ++ print_duplicate_info cfg.database cfg.table (groupedDuplicates results)

/-- Body of the checker's Slack alert: the alert header followed by the
same `print_duplicate_info` text. -/
def slackAlertBody (cfg : TableConfig) (results : List (Nat × Nat × Nat)) :
    List String :=
  s!"Alert: Duplicates found in {cfg.database}.{cfg.table}:" ::
    print_duplicate_info cfg.database cfg.table (groupedDuplicates results)

/-- The alerts one checker iteration dispatches for a table
(`get_duplicates_and_alert`): when the query returns a non-empty result
set, one email and one Slack alert; otherwise none. -/
def checkerAlerts (cfg : TableConfig) (notifFail : Bool) (t : Table) : List Alert :=
  if dupQuery t = [] then []
  else
    [ Alert.email (emailSubject cfg) (buildAlertBody cfg (dupQuery t)) (!notifFail),
      Alert.slack (slackAlertBody cfg (dupQuery t)) (!notifFail) ]

/-- A configured table section of the checker run: its configuration, its
table, whether its detection query raises, and whether alert delivery
fails (delivery failures are caught inside the notifiers). -/
structure CheckerSection where
  cfg : TableConfig
  tbl : Table
  detectFail : Bool
  notifFail : Bool

/-- The checker's loop over the configured sections
(`get_duplicates_and_alert`): the whole loop runs inside one `try`, so a
detection failure in a section propagates to the run-level handler — the
flag records that — and every section after it is left unprocessed.
Delivery failures are caught per alert and do not stop the loop. -/
def checkerRun : List CheckerSection → List (List Alert) × Bool
  | [] => ([], false)
  | s :: rest =>
    if s.detectFail then ([], true)
    else
      let out := checkerRun rest
      (checkerAlerts s.cfg s.notifFail s.tbl :: out.1, out.2)

/-- Resource events of one run: opening the database connection, an
explicit `conn.close()` call, the exit handler of a `with` block, and the
per-table work. -/
inductive Ev where
  | openConn
  | closeConn
  | ctxExit
  | work
deriving DecidableEq

/-- Number of connection-open events in a trace. -/
def openCount (es : List Ev) : Nat :=
  (es.filter fun e => decide (e = Ev.openConn)).length

/-- Event trace of `remove_duplicates` (`Remove_Duplicates.py`):
`conn = None`; inside `try`, `pg.connect` (whose failure is caught by the
run-level handler, leaving `conn` as `None`), then the loop; the `finally`
block calls `conn.close()` whenever `conn` was set. -/
def remover_run_events (connectFails bodyRaises : Bool) : List Ev :=
  if connectFails then []
  else Ev.openConn :: (if bodyRaises then [] else [Ev.work]) ++ [Ev.closeConn]

/-- Event trace of `get_duplicates_and_alert` (`Check_Duplicates.py`):
`with pg.connect(...) as conn:` opens the connection and runs the loop; on
every path out of the block the context manager's exit handler runs
(psycopg2's connection exit ends the enclosed transaction; it is not a
`close()` call, and no `conn.close()` appears anywhere in the checker). -/
def checker_run_events (connectFails bodyRaises : Bool) : List Ev :=
  if connectFails then []
  else Ev.openConn :: (if bodyRaises then [] else [Ev.work]) ++ [Ev.ctxExit]

/-- Concrete table: key 5 is duplicated inside the `dateCreated = 1`
partition and also present, undetected, in the `dateCreated = 2` partition. -/
def exTable : Table := [⟨1, 5, 0⟩, ⟨1, 5, 1⟩, ⟨2, 5, 2⟩]

/-- Concrete table with one duplicated `(dateCreated, key)` pair. -/
def exDupTable : Table := [⟨1, 5, 0⟩, ⟨1, 5, 1⟩]

/-- Concrete table with no duplicated pair and no duplicated key. -/
def exCleanTable : Table := [⟨1, 1, 0⟩, ⟨2, 2, 0⟩]

/-- Concrete table where key 9 appears three times (earliest date 1) and
key 4 appears once. -/
def exKTable : Table := [⟨3, 9, 0⟩, ⟨1, 9, 1⟩, ⟨1, 9, 2⟩, ⟨5, 4, 3⟩]

/-- A concrete table configuration, as in the spec scenario. -/
def exConfig : TableConfig := ⟨"sales", "orders", "order_id", "host1", "task1"⟩

/-! ### Lemmas about the detection query -/

theorem insertDesc_perm (x : Nat × Nat × Nat) (l : List (Nat × Nat × Nat)) :
    List.Perm (insertDesc x l) (x :: l) := by
  induction l with
  | nil => simp [insertDesc]
  | cons y ys ih =>
    by_cases h : y.1 ≤ x.1
    · simp [insertDesc, h]
    · simp only [insertDesc, h, if_neg, ite_false]
      exact (List.Perm.cons y ih).trans (List.Perm.swap x y ys)

theorem sortDesc_perm (l : List (Nat × Nat × Nat)) :
    List.Perm (sortDesc l) l := by
  induction l with
  | nil => simp [sortDesc]
  | cons x xs ih =>
    exact (insertDesc_perm x (sortDesc xs)).trans (List.Perm.cons x ih)

theorem mem_sortDesc {x : Nat × Nat × Nat} {l : List (Nat × Nat × Nat)} :
    x ∈ sortDesc l ↔ x ∈ l :=
  (sortDesc_perm l).mem_iff

theorem mem_insertDesc {y x : Nat × Nat × Nat} {l : List (Nat × Nat × Nat)} :
    y ∈ insertDesc x l ↔ y = x ∨ y ∈ l := by
  rw [(insertDesc_perm x l).mem_iff, List.mem_cons]

theorem pairwise_insertDesc (x : Nat × Nat × Nat) (l : List (Nat × Nat × Nat))
    (h : l.Pairwise fun a b => b.1 ≤ a.1) :
    (insertDesc x l).Pairwise fun a b => b.1 ≤ a.1 := by
  induction l with
  | nil => simp [insertDesc]
  | cons y ys ih =>
    rcases List.pairwise_cons.mp h with ⟨hy, hys⟩
    by_cases hle : y.1 ≤ x.1
    · simp only [insertDesc, hle, ite_true]
      refine List.pairwise_cons.mpr ⟨?_, h⟩
      intro z hz
      rcases List.mem_cons.mp hz with hz | hz
      · exact hz ▸ hle
      · exact le_trans (hy z hz) hle
    · simp only [insertDesc, hle, ite_false]
      refine List.pairwise_cons.mpr ⟨?_, ih hys⟩
      intro z hz
      rcases mem_insertDesc.mp hz with hz | hz
      · exact hz ▸ le_of_not_le hle
      · exact hy z hz

theorem sortDesc_sorted (l : List (Nat × Nat × Nat)) :
    (sortDesc l).Pairwise fun a b => b.1 ≤ a.1 := by
  induction l with
  | nil => simp [sortDesc]
  | cons x xs ih => exact pairwise_insertDesc x (sortDesc xs) ih

theorem pairCount_pos_iff (t : Table) (d k : Nat) :
    0 < pairCount t d k ↔ ∃ r ∈ t, r.dateCreated = d ∧ r.key = k := by
  unfold pairCount
  rw [List.length_pos_iff_exists_mem]
  constructor
  · rintro ⟨r, hr⟩
    rcases List.mem_filter.mp hr with ⟨hmem, hp⟩
    exact ⟨r, hmem, of_decide_eq_true hp⟩
  · rintro ⟨r, hmem, hp⟩
    exact ⟨r, List.mem_filter.mpr ⟨hmem, decide_eq_true hp⟩⟩

theorem mem_dupGroups {t : Table} {d k c : Nat} :
    (d, k, c) ∈ dupGroups t ↔ 1 < c ∧ pairCount t d k = c := by
  unfold dupGroups
  rw [List.mem_filterMap]
  constructor
  · rintro ⟨p, _, hp⟩
    by_cases hc : 1 < pairCount t p.1 p.2
    · rw [if_pos hc, Option.some_inj] at hp
      have h1 : p.1 = d := congrArg Prod.fst hp
      have h2 : p.2 = k := congrArg (fun q => q.2.1) hp
      have h3 : pairCount t p.1 p.2 = c := congrArg (fun q => q.2.2) hp
      subst h1; subst h2
      exact ⟨h3 ▸ hc, h3⟩
    · rw [if_neg hc] at hp
      exact absurd hp (by simp)
  · rintro ⟨hc, hcount⟩
    have hpos : 0 < pairCount t d k := by omega
    rcases (pairCount_pos_iff t d k).mp hpos with ⟨r, hmem, hd, hk⟩
    refine ⟨(d, k), ?_, ?_⟩
    · rw [List.mem_dedup, List.mem_map]
      exact ⟨r, hmem, by rw [hd, hk]⟩
    · rw [hcount, if_pos (hcount ▸ hc)]

theorem nodup_dupGroups (t : Table) : (dupGroups t).Nodup := by
  unfold dupGroups
  refine List.Nodup.filterMap ?_ (List.nodup_dedup _)
  intro p q b hp hq
  by_cases hcp : 1 < pairCount t p.1 p.2
  · rw [if_pos hcp, Option.mem_def, Option.some_inj] at hp
    by_cases hcq : 1 < pairCount t q.1 q.2
    · rw [if_pos hcq, Option.mem_def, Option.some_inj] at hq
      have h1 : p.1 = q.1 := by
        have := congrArg Prod.fst (hp.trans hq.symm); exact this
      have h2 : p.2 = q.2 := by
        have := congrArg (fun z => z.2.1) (hp.trans hq.symm); exact this
      exact Prod.ext h1 h2
    · rw [if_neg hcq] at hq; exact absurd hq (by simp)
  · rw [if_neg hcp] at hp; exact absurd hp (by simp)

theorem mem_dupQuery {t : Table} {d k c : Nat} :
    (d, k, c) ∈ dupQuery t ↔ 1 < c ∧ pairCount t d k = c := by
  rw [dupQuery, mem_sortDesc, mem_dupGroups]

theorem nodup_dupQuery (t : Table) : (dupQuery t).Nodup :=
  ((sortDesc_perm (dupGroups t)).nodup_iff).mpr (nodup_dupGroups t)

theorem dupQuery_sorted (t : Table) :
    (dupQuery t).Pairwise fun a b => b.1 ≤ a.1 :=
  sortDesc_sorted (dupGroups t)

theorem dupQuery_eq_nil (t : Table)
    (h : ∀ p ∈ t.map fun r => (r.dateCreated, r.key), pairCount t p.1 p.2 ≤ 1) :
    dupQuery t = [] := by
  unfold dupQuery dupGroups
  have hg : ((t.map fun r => (r.dateCreated, r.key)).dedup).filterMap
      (fun p => if 1 < pairCount t p.1 p.2 then
        some (p.1, p.2, pairCount t p.1 p.2) else none) = [] := by
    rw [List.filterMap_eq_nil_iff]
    intro p hp
    have hp' : p ∈ t.map fun r => (r.dateCreated, r.key) := List.mem_dedup.mp hp
    rw [if_neg]
    exact not_lt_of_le (h p hp')
  rw [hg]; rfl

/-! ### Lemmas about key partitions and the staging step -/

theorem keyCount_pos_iff (t : Table) (k : Nat) :
    0 < keyCount t k ↔ ∃ r ∈ t, r.key = k := by
  unfold keyCount
  rw [List.length_pos_iff_exists_mem]
  constructor
  · rintro ⟨r, hr⟩
    rcases List.mem_filter.mp hr with ⟨hmem, hp⟩
    exact ⟨r, hmem, of_decide_eq_true hp⟩
  · rintro ⟨r, hmem, hp⟩
    exact ⟨r, List.mem_filter.mpr ⟨hmem, decide_eq_true hp⟩⟩

theorem keyCount_eq_zero_of_not_mem {t : Table} {k : Nat}
    (h : k ∉ t.map Row.key) : keyCount t k = 0 := by
  by_contra hne
  rcases (keyCount_pos_iff t k).mp (Nat.pos_of_ne_zero hne) with ⟨r, hmem, hk⟩
  exact h (List.mem_map.mpr ⟨r, hmem, hk⟩)

theorem pairCount_le_keyCount (t : Table) (d k : Nat) :
    pairCount t d k ≤ keyCount t k := by
  unfold pairCount keyCount
  have heq : (t.filter fun r => decide (r.dateCreated = d ∧ r.key = k)) =
      (t.filter fun r => decide (r.key = k)).filter fun r => decide (r.dateCreated = d) := by
    rw [List.filter_filter]
    apply List.filter_congr
    intro r _
    simp [Bool.decide_and, Bool.and_comm]
  rw [heq]
  exact List.length_filter_le _ _

theorem mem_dupKeys {t : Table} {k : Nat} :
    k ∈ dupKeys t ↔ 1 < keyCount t k := by
  unfold dupKeys
  rw [List.mem_filter]
  constructor
  · rintro ⟨_, hp⟩
    exact of_decide_eq_true hp
  · intro h
    have hpos : 0 < keyCount t k := by omega
    rcases (keyCount_pos_iff t k).mp hpos with ⟨r, hmem, hk⟩
    exact ⟨List.mem_dedup.mpr (List.mem_map.mpr ⟨r, hmem, hk⟩), decide_eq_true h⟩

theorem nodup_dupKeys (t : Table) : (dupKeys t).Nodup :=
  (List.nodup_dedup _).filter _

theorem minDateRow_spec (t : Table) (k : Nat) :
    (minDateRow t k = none ∧ ∀ r ∈ t, r.key ≠ k) ∨
    (∃ r, minDateRow t k = some r ∧ r ∈ t ∧ r.key = k ∧
      ∀ q ∈ t, q.key = k → r.dateCreated ≤ q.dateCreated) := by
  induction t with
  | nil => exact Or.inl ⟨rfl, by simp⟩
  | cons r rs ih =>
    by_cases hk : r.key = k
    · right
      rcases ih with ⟨hnone, hall⟩ | ⟨q, hq, hqmem, hqkey, hqmin⟩
      · refine ⟨r, ?_, List.mem_cons_self r rs, hk, ?_⟩
        · simp [minDateRow, hk, hnone]
        · intro q hq hqk
          rcases List.mem_cons.mp hq with hq | hq
          · exact hq ▸ le_refl _
          · exact absurd hqk (hall q hq)
      · by_cases hlt : q.dateCreated < r.dateCreated
        · refine ⟨q, ?_, List.mem_cons_of_mem r hqmem, hqkey, ?_⟩
          · simp [minDateRow, hk, hq, hlt]
          · intro s hs hsk
            rcases List.mem_cons.mp hs with hs | hs
            · exact hs ▸ le_of_lt hlt
            · exact hqmin s hs hsk
        · refine ⟨r, ?_, List.mem_cons_self r rs, hk, ?_⟩
          · simp [minDateRow, hk, hq, hlt]
          · intro s hs hsk
            rcases List.mem_cons.mp hs with hs | hs
            · exact hs ▸ le_refl _
            · exact le_trans (le_of_not_lt hlt) (hqmin s hs hsk)
    · have hstep : minDateRow (r :: rs) k = minDateRow rs k := by
        simp [minDateRow, hk]
      rcases ih with ⟨hnone, hall⟩ | ⟨q, hq, hqmem, hqkey, hqmin⟩
      · left
        refine ⟨hstep ▸ hnone, ?_⟩
        intro s hs
        rcases List.mem_cons.mp hs with hs | hs
        · exact hs ▸ hk
        · exact hall s hs
      · right
        refine ⟨q, hstep ▸ hq, List.mem_cons_of_mem r hqmem, hqkey, ?_⟩
        intro s hs hsk
        rcases List.mem_cons.mp hs with hs | hs
        · exact absurd (hs ▸ hsk) hk
        · exact hqmin s hs hsk

theorem minDateRow_of_pos {t : Table} {k : Nat} (h : 0 < keyCount t k) :
    ∃ r, minDateRow t k = some r ∧ r ∈ t ∧ r.key = k ∧
      ∀ q ∈ t, q.key = k → r.dateCreated ≤ q.dateCreated := by
  rcases minDateRow_spec t k with ⟨_, hall⟩ | hr
  · rcases (keyCount_pos_iff t k).mp h with ⟨r, hmem, hk⟩
    exact absurd hk (hall r hmem)
  · exact hr

theorem step1_keys (t : Table) :
    (step1_side t).map (fun sr => sr.row.key) = dupKeys t := by
  have hgen : ∀ l : List Nat, (∀ k ∈ l, 0 < keyCount t k) →
      ((l.filterMap fun k =>
          (minDateRow t k).map fun r => (⟨keyCount t k, 1, r⟩ : SideRow)).map
        fun sr => sr.row.key) = l := by
    intro l
    induction l with
    | nil => intro _; rfl
    | cons k ks ih =>
      intro h
      rcases minDateRow_of_pos (h k (List.mem_cons_self k ks)) with ⟨r, hr, _, hrk, _⟩
      rw [List.filterMap_cons, hr]
      simp only [Option.map_some']
      rw [List.map_cons, ih fun x hx => h x (List.mem_cons_of_mem k hx)]
      rw [show (⟨keyCount t k, 1, r⟩ : SideRow).row.key = k from hrk]
  unfold step1_side
  apply hgen
  intro k hk
  have := mem_dupKeys.mp hk
  omega

theorem mem_step1_side {t : Table} {sr : SideRow} (h : sr ∈ step1_side t) :
    1 < keyCount t sr.row.key ∧ minDateRow t sr.row.key = some sr.row := by
  rcases List.mem_filterMap.mp h with ⟨k, hk, heq⟩
  rcases Option.map_eq_some'.mp heq with ⟨r, hr, hsr⟩
  have hdup := mem_dupKeys.mp hk
  rcases minDateRow_of_pos (show 0 < keyCount t k by omega) with ⟨r', hr', _, hrk', _⟩
  rw [hr] at hr'
  have hrr : r = r' := by injection hr'
  subst hrr
  have hrow : sr.row = r := by rw [← hsr]
  have hkey : sr.row.key = k := by rw [hrow]; exact hrk'
  rw [hkey, hrow]
  exact ⟨hdup, hr⟩

theorem filter_eq_singleton_of_nodup_map {α β : Type} [DecidableEq β]
    (f : α → β) (b : β) :
    ∀ (l : List α) (a0 : α), (l.map f).Nodup → a0 ∈ l → f a0 = b →
      l.filter (fun a => decide (f a = b)) = [a0] := by
  intro l
  induction l with
  | nil => intro a0 _ h; exact absurd h (List.not_mem_nil a0)
  | cons a l' ih =>
    intro a0 hn hmem hfb
    rw [List.map_cons] at hn
    rcases List.nodup_cons.mp hn with ⟨hhead, htail⟩
    by_cases hfa : f a = b
    · have ha0 : a0 = a := by
        rcases List.mem_cons.mp hmem with h | h
        · exact h
        · exact absurd (List.mem_map.mpr ⟨a0, h, by rw [hfb, hfa]⟩) hhead
      subst ha0
      have hrest : l'.filter (fun x => decide (f x = b)) = [] := by
        rw [List.filter_eq_nil_iff]
        intro x hx hdec
        have hfx : f x = b := of_decide_eq_true hdec
        exact hhead (hfa ▸ List.mem_map.mpr ⟨x, hx, hfx⟩)
      simp [List.filter_cons, hfa, hrest]
    · have ha0 : a0 ∈ l' := by
        rcases List.mem_cons.mp hmem with h | h
        · exact absurd (h ▸ hfb) hfa
        · exact h
      have hstep : List.filter (fun x => decide (f x = b)) (a :: l') =
          List.filter (fun x => decide (f x = b)) l' := by
        simp [List.filter_cons, hfa]
      rw [hstep]
      exact ih a0 htail ha0 hfb

theorem side_filter_dup {t : Table} {k : Nat} (h : 1 < keyCount t k) :
    ∃ r, minDateRow t k = some r ∧
      (step1_side t).filter (fun sr => decide (sr.row.key = k)) =
        [⟨keyCount t k, 1, r⟩] := by
  rcases minDateRow_of_pos (show 0 < keyCount t k by omega) with ⟨r, hr, _, hrk, _⟩
  refine ⟨r, hr, ?_⟩
  have hmem : (⟨keyCount t k, 1, r⟩ : SideRow) ∈ step1_side t := by
    refine List.mem_filterMap.mpr ⟨k, mem_dupKeys.mpr h, ?_⟩
    rw [hr]; rfl
  have hnodup : ((step1_side t).map fun sr => sr.row.key).Nodup := by
    rw [step1_keys]; exact nodup_dupKeys t
  exact filter_eq_singleton_of_nodup_map _ k (step1_side t) _ hnodup hmem hrk

theorem side_filter_nondup {t : Table} {k : Nat} (h : keyCount t k ≤ 1) :
    (step1_side t).filter (fun sr => decide (sr.row.key = k)) = [] := by
  rw [List.filter_eq_nil_iff]
  intro sr hsr hdec
  have hk : sr.row.key = k := of_decide_eq_true hdec
  have := (mem_step1_side hsr).1
  rw [hk] at this
  omega

theorem delete_step_side (t : Table) :
    delete_step t (step1_side t) = t.filter fun r => decide (keyCount t r.key ≤ 1) := by
  unfold delete_step
  apply List.filter_congr
  intro r _
  by_cases h : 1 < keyCount t r.key
  · rcases side_filter_dup h with ⟨q, _, hfil⟩
    have hmem : (⟨keyCount t r.key, 1, q⟩ : SideRow) ∈ step1_side t := by
      have : (⟨keyCount t r.key, 1, q⟩ : SideRow) ∈
          (step1_side t).filter (fun sr => decide (sr.row.key = r.key)) := by
        rw [hfil]; exact List.mem_singleton.mpr rfl
      exact (List.mem_filter.mp this).1
    have hany : (step1_side t).any (fun sr => decide (sr.row.key = r.key)) = true := by
      refine List.any_eq_true.mpr ⟨⟨keyCount t r.key, 1, q⟩, hmem, ?_⟩
      have : (⟨keyCount t r.key, 1, q⟩ : SideRow) ∈
          (step1_side t).filter (fun sr => decide (sr.row.key = r.key)) := by
        rw [hfil]; exact List.mem_singleton.mpr rfl
      exact (List.mem_filter.mp this).2
    rw [hany]
    simp [Nat.not_le.mpr h]
  · have hany : (step1_side t).any (fun sr => decide (sr.row.key = r.key)) = false := by
      rw [List.any_eq_false]
      intro sr hsr
      intro hdec
      have hk : sr.row.key = r.key := of_decide_eq_true hdec
      have := (mem_step1_side hsr).1
      rw [hk] at this
      exact h this
    rw [hany]
    simp [Nat.not_lt.mp h]

theorem length_filter_add {α : Type} (p : α → Bool) (l : List α) :
    (l.filter p).length + (l.filter fun a => !p a).length = l.length := by
  induction l with
  | nil => rfl
  | cons a l' ih =>
    by_cases h : p a = true
    · have e1 : List.filter p (a :: l') = a :: List.filter p l' :=
        List.filter_cons_of_pos h
      have e2 : List.filter (fun x => !p x) (a :: l') =
          List.filter (fun x => !p x) l' := by
        apply List.filter_cons_of_neg
        rw [h]; simp
      rw [e1, e2]
      simp only [List.length_cons]
      omega
    · have h2 : (!p a) = true := by revert h; cases p a <;> simp
      have e1 : List.filter p (a :: l') = List.filter p l' :=
        List.filter_cons_of_neg h
      have e2 : List.filter (fun x => !p x) (a :: l') =
          a :: List.filter (fun x => !p x) l' :=
        List.filter_cons_of_pos h2
      rw [e1, e2]
      simp only [List.length_cons]
      omega

theorem removeResult_filter_dup {t : Table} {k : Nat} (h : 1 < keyCount t k) :
    ∃ r, minDateRow t k = some r ∧ r ∈ t ∧ r.key = k ∧
      (∀ q ∈ t, q.key = k → r.dateCreated ≤ q.dateCreated) ∧
      (removeResult t).filter (fun q => decide (q.key = k)) = [r] := by
  rcases minDateRow_of_pos (show 0 < keyCount t k by omega) with ⟨r, hr, hmem, hrk, hmin⟩
  rcases side_filter_dup h with ⟨r', hr', hfil⟩
  have hrr : r' = r := by rw [hr] at hr'; injection hr' with h'; exact h'.symm
  rw [hrr] at hfil
  refine ⟨r, hr, hmem, hrk, hmin, ?_⟩
  unfold removeResult reinsert_step
  rw [List.filter_append]
  have hA : (delete_step t (step1_side t)).filter (fun q => decide (q.key = k)) = [] := by
    rw [delete_step_side, List.filter_filter, List.filter_eq_nil_iff]
    intro q _ hq
    rcases Bool.and_eq_true .. |>.mp hq with ⟨h1, h2⟩
    have hk : q.key = k := of_decide_eq_true h1
    have hle : keyCount t q.key ≤ 1 := of_decide_eq_true h2
    rw [hk] at hle
    omega
  have hB : ((step1_side t).map fun sr => sr.row).filter (fun q => decide (q.key = k)) =
      [r] := by
    rw [List.filter_map]
    have hcomp : ((fun q => decide (q.key = k)) ∘ fun sr : SideRow => sr.row) =
        fun sr : SideRow => decide (sr.row.key = k) := rfl
    rw [hcomp, hfil]
    rfl
  rw [hA, hB]
  rfl

theorem removeResult_filter_nondup {t : Table} {k : Nat} (h : keyCount t k ≤ 1) :
    (removeResult t).filter (fun q => decide (q.key = k)) =
      t.filter (fun q => decide (q.key = k)) := by
  unfold removeResult reinsert_step
  rw [List.filter_append]
  have hA : (delete_step t (step1_side t)).filter (fun q => decide (q.key = k)) =
      t.filter (fun q => decide (q.key = k)) := by
    rw [delete_step_side, List.filter_filter]
    apply List.filter_congr
    intro q _
    by_cases hk : q.key = k
    · simp [hk]
      exact h
    · simp [hk]
  have hB : ((step1_side t).map fun sr => sr.row).filter (fun q => decide (q.key = k)) =
      [] := by
    rw [List.filter_map]
    have hcomp : ((fun q => decide (q.key = k)) ∘ fun sr : SideRow => sr.row) =
        fun sr : SideRow => decide (sr.row.key = k) := rfl
    rw [hcomp, side_filter_nondup h]
    rfl
  rw [hA, hB, List.append_nil]

theorem keyCount_removeResult_dup {t : Table} {k : Nat} (h : 1 < keyCount t k) :
    keyCount (removeResult t) k = 1 := by
  rcases removeResult_filter_dup h with ⟨r, _, _, _, _, hfil⟩
  unfold keyCount
  rw [hfil]
  rfl

theorem keyCount_removeResult_nondup {t : Table} {k : Nat} (h : keyCount t k ≤ 1) :
    keyCount (removeResult t) k = keyCount t k := by
  unfold keyCount
  rw [removeResult_filter_nondup h]

theorem removeResult_key_le_one (t : Table) (k : Nat) :
    keyCount (removeResult t) k ≤ 1 := by
  by_cases h : 1 < keyCount t k
  · rw [keyCount_removeResult_dup h]
  · have hle : keyCount t k ≤ 1 := by omega
    rw [keyCount_removeResult_nondup hle]
    exact hle

theorem dupQuery_removeResult (t : Table) : dupQuery (removeResult t) = [] := by
  apply dupQuery_eq_nil
  intro p _
  calc pairCount (removeResult t) p.1 p.2
      ≤ keyCount (removeResult t) p.2 := pairCount_le_keyCount _ _ _
    _ ≤ 1 := removeResult_key_le_one t p.2

theorem eq_singleton_of_nodup_mem {α : Type} {l : List α} {a : α}
    (hn : l.Nodup) (hm : ∀ x, x ∈ l ↔ x = a) : l = [a] := by
  cases l with
  | nil => exact absurd ((hm a).mpr rfl) (List.not_mem_nil a)
  | cons b l' =>
    have hb : b = a := (hm b).mp (List.mem_cons_self b l')
    subst hb
    rcases List.nodup_cons.mp hn with ⟨hhead, _⟩
    have hl' : l' = [] := by
      cases l' with
      | nil => rfl
      | cons c l'' =>
        have hc : c = b := (hm c).mp (List.mem_cons_of_mem b (List.mem_cons_self c l''))
        exact absurd (hc ▸ List.mem_cons_self c l'') hhead
    rw [hl']

theorem step1_side_length (t : Table) :
    (step1_side t).length = (dupKeys t).length := by
  rw [← step1_keys t, List.length_map]

/-! ### Lemmas about the checker's grouped summary -/

theorem groupLookup_addToGroup (m : List (Nat × List Nat)) (c c' k : Nat) :
    groupLookup c (addToGroup m c' k) =
      if c' = c then some ((groupLookup c m).getD [] ++ [k])
      else groupLookup c m := by
  induction m with
  | nil =>
    by_cases h : c' = c <;> simp [addToGroup, groupLookup, h]
  | cons e rest ih =>
    rcases e with ⟨c'', ks⟩
    by_cases h1 : c'' = c'
    · subst h1
      by_cases h2 : c'' = c
      · subst h2
        simp [addToGroup, groupLookup]
      · simp [addToGroup, groupLookup, h2]
    · by_cases h2 : c'' = c
      · subst h2
        have h3 : ¬c' = c'' := fun he => h1 he.symm
        simp [addToGroup, groupLookup, h1, h3]
      · simp [addToGroup, groupLookup, h1, h2, ih]

theorem keysFor_cons (c : Nat) (g : Nat × Nat × Nat) (rs : List (Nat × Nat × Nat)) :
    keysFor c (g :: rs) =
      if g.2.2 = c then g.2.1 :: keysFor c rs else keysFor c rs := by
  by_cases h : g.2.2 = c <;> simp [keysFor, List.filter_cons, h]

theorem combineGroup_step (o : Option (List Nat)) (k : Nat) (l : List Nat) :
    combineGroup (some (o.getD [] ++ [k])) l = combineGroup o (k :: l) := by
  cases o with
  | none => simp [combineGroup]
  | some ks => simp [combineGroup]

theorem groupLookup_foldl (c : Nat) :
    ∀ (results : List (Nat × Nat × Nat)) (m : List (Nat × List Nat)),
      groupLookup c (results.foldl (fun acc g => addToGroup acc g.2.2 g.2.1) m) =
        combineGroup (groupLookup c m) (keysFor c results) := by
  intro results
  induction results with
  | nil =>
    intro m
    simp [keysFor, combineGroup]
    cases groupLookup c m <;> simp [combineGroup]
  | cons g rs ih =>
    intro m
    rw [List.foldl_cons, ih, groupLookup_addToGroup, keysFor_cons]
    by_cases h : g.2.2 = c
    · rw [if_pos h, if_pos h, combineGroup_step]
    · rw [if_neg h, if_neg h]

theorem mem_of_groupLookup {c : Nat} {m : List (Nat × List Nat)} {ks : List Nat}
    (h : groupLookup c m = some ks) : (c, ks) ∈ m := by
  induction m with
  | nil => exact absurd h (by simp [groupLookup])
  | cons e rest ih =>
    rcases e with ⟨c', ks'⟩
    by_cases hc : c' = c
    · subst hc
      rw [groupLookup, if_pos rfl, Option.some_inj] at h
      subst h
      exact List.mem_cons_self _ _
    · rw [groupLookup, if_neg hc] at h
      exact List.mem_cons_of_mem _ (ih h)

theorem groupedDuplicates_entry {c : Nat} {results : List (Nat × Nat × Nat)}
    (h : keysFor c results ≠ []) :
    (c, keysFor c results) ∈ groupedDuplicates results := by
  have hlk : groupLookup c (groupedDuplicates results) = some (keysFor c results) := by
    unfold groupedDuplicates
    rw [groupLookup_foldl]
    simp [groupLookup, combineGroup, h]
  exact mem_of_groupLookup hlk

theorem affectedLine_mem_print {c : Nat} {results : List (Nat × Nat × Nat)}
    (dbn tbn : String) (h : keysFor c results ≠ []) :
    affectedLine (keysFor c results).length c ∈
      print_duplicate_info dbn tbn (groupedDuplicates results) := by
  unfold print_duplicate_info
  refine List.mem_cons_of_mem _ ?_
  exact List.mem_map.mpr ⟨(c, keysFor c results), groupedDuplicates_entry h, rfl⟩

/-! ### Helper lemmas about the remover's per-section behaviour -/

theorem runRemovalSteps_none (t : Table) :
    runRemovalSteps none ⟨t, none⟩ = (⟨removeResult t, none⟩, false) := rfl

theorem remover_process_section_skip (failAt : Option Nat) {t : Table}
    (hq : dupQuery t = []) :
    remover_process_section false failAt t = ⟨t, none, false, false⟩ := by
  unfold remover_process_section check_for_duplicates
  rw [if_neg (by simp), hq]

theorem remover_process_section_go {t : Table} {g : Nat × Nat × Nat}
    {gs : List (Nat × Nat × Nat)} (hq : dupQuery t = g :: gs) :
    remover_process_section false none t = ⟨removeResult t, none, true, false⟩ := by
  unfold remover_process_section check_for_duplicates
  rw [if_neg (by simp), hq, runRemovalSteps_none]

/-! ### Claim theorems -/

/-- C6: the duplicate detector returns exactly the set of
`(dateCreated, key, count)` triples whose count of rows sharing that
`(dateCreated, key)` pair is strictly greater than 1, with no repetitions,
ordered by `dateCreated` descending; on a query error it returns an error
indication (`None`) instead of a row set; and executing the detection
query leaves the table unchanged. -/
theorem detector_spec (t : Table) (d k c : Nat) :
    check_for_duplicates true t = none ∧
    check_for_duplicates false t = some (dupQuery t) ∧
    ((d, k, c) ∈ dupQuery t ↔ 1 < c ∧ pairCount t d k = c) ∧
    (dupQuery t).Pairwise (fun a b => b.1 ≤ a.1) ∧
    (dupQuery t).Nodup ∧
    (run_check_query t).1 = t :=
  ⟨rfl, rfl, mem_dupQuery, dupQuery_sorted t, nodup_dupQuery t, rfl⟩

/-- C7: for a table in which no `(dateCreated, unique_key)` pair is shared
by more than one row, the detector returns an empty result, the checker
dispatches no email and no chat alert, and the remover executes none of
the four removal steps, leaving the table unchanged. -/
theorem no_duplicates_no_action (cfg : TableConfig) (nf : Bool)
    (failAt : Option Nat) (t : Table)
    (h : ∀ p ∈ t.map fun r => (r.dateCreated, r.key), pairCount t p.1 p.2 ≤ 1) :
    dupQuery t = [] ∧
    checkerAlerts cfg nf t = [] ∧
    remover_process_section false failAt t = ⟨t, none, false, false⟩ := by
  have hq := dupQuery_eq_nil t h
  refine ⟨hq, ?_, remover_process_section_skip failAt hq⟩
  unfold checkerAlerts
  rw [if_pos hq]

/-- C7 witness: the duplicate-free concrete table triggers no detector
output, no alert and no removal step. -/
theorem no_duplicates_no_action_witness :
    dupQuery exCleanTable = [] ∧
    checkerAlerts exConfig false exCleanTable = [] ∧
    remover_process_section false none exCleanTable =
      ⟨exCleanTable, none, false, false⟩ :=
  no_duplicates_no_action exConfig false none exCleanTable (by decide)

/-- C4: removal is idempotent — after one happy-path remover pass over a
table, the second pass's duplicate detection returns an empty result and
the second pass performs no removal steps and leaves the table unchanged. -/
theorem remover_idempotent (t : Table) :
    dupQuery (remover_process_section false none t).main = [] ∧
    remover_process_section false none (remover_process_section false none t).main =
      ⟨(remover_process_section false none t).main, none, false, false⟩ := by
  cases hq : dupQuery t with
  | nil =>
    have h1 : remover_process_section false none t = ⟨t, none, false, false⟩ :=
      remover_process_section_skip none hq
    rw [h1]
    exact ⟨hq, remover_process_section_skip none hq⟩
  | cons g gs =>
    have h1 : remover_process_section false none t =
        ⟨removeResult t, none, true, false⟩ := remover_process_section_go hq
    rw [h1]
    exact ⟨dupQuery_removeResult t,
      remover_process_section_skip none (dupQuery_removeResult t)⟩

/-- C1 counterexample: in `exTable`, the pair `(dateCreated, key) = (2, 5)`
occurs in exactly one row, yet after the removal sequence that row is gone:
removal partitions by `unique_key` alone, so it deletes rows whose
`(dateCreated, unique_key)` pair was not duplicated. -/
theorem remove_undup_date_row_deleted :
    pairCount exTable 2 5 = 1 ∧
    (⟨2, 5, 2⟩ : Row) ∈ exTable ∧
    remover_process_section false none exTable =
      ⟨[⟨1, 5, 0⟩], none, true, false⟩ ∧
    (⟨2, 5, 2⟩ : Row) ∉ (remover_process_section false none exTable).main := by
  decide

/-- C1 (amended): after the four-step removal sequence, the table contains
exactly one row — the earliest-`dateCreated` one — for every `unique_key`
value that previously had more than one row (regardless of `dateCreated`),
and the rows of every `unique_key` value that was not duplicated are
unchanged. -/
theorem remove_result_per_key (t : Table) (k k' : Nat)
    (hdup : 1 < keyCount t k) (hone : keyCount t k' ≤ 1) :
    (∃ r, (removeResult t).filter (fun q => decide (q.key = k)) = [r] ∧
      r ∈ t ∧ r.key = k ∧ keyCount (removeResult t) k = 1 ∧
      ∀ q ∈ t, q.key = k → r.dateCreated ≤ q.dateCreated) ∧
    (removeResult t).filter (fun q => decide (q.key = k')) =
      t.filter (fun q => decide (q.key = k')) := by
  refine ⟨?_, removeResult_filter_nondup hone⟩
  rcases removeResult_filter_dup hdup with ⟨r, _, hmem, hrk, hmin, hfil⟩
  exact ⟨r, hfil, hmem, hrk, keyCount_removeResult_dup hdup, hmin⟩

/-- C1 witness: the amended statement instantiated on `exTable` with the
duplicated key 5 and the absent key 7. -/
theorem remove_result_per_key_witness :
    (∃ r, (removeResult exTable).filter (fun q => decide (q.key = 5)) = [r] ∧
      r ∈ exTable ∧ r.key = 5 ∧ keyCount (removeResult exTable) 5 = 1 ∧
      ∀ q ∈ exTable, q.key = 5 → r.dateCreated ≤ q.dateCreated) ∧
    (removeResult exTable).filter (fun q => decide (q.key = 7)) =
      exTable.filter (fun q => decide (q.key = 7)) :=
  remove_result_per_key exTable 5 7 (by decide) (by decide)

/-- C2: when the step-2 delete fails after the step-1 stage was committed,
the handler issues the explicit `ROLLBACK` and the main table is unchanged
from its pre-run state, but the side table `<table>_duplicates` — created
and committed by step 1, with step 4 never reached — persists after the
run, contradicting the claim that it does not persist. -/
theorem step2_failure_side_table_persists (t : Table) :
    runRemovalSteps (some 2) ⟨t, none⟩ = (⟨t, some (step1_side t)⟩, true) ∧
    (runRemovalSteps (some 2) ⟨t, none⟩).1.main = t ∧
    (runRemovalSteps (some 2) ⟨t, none⟩).2 = true ∧
    ((runRemovalSteps (some 2) ⟨t, none⟩).1.side).isSome = true :=
  ⟨rfl, rfl, rfl, rfl⟩

/-- C10: when the detection query for a table raises,
`check_for_duplicates` returns `None` instead of propagating the
exception, the remover takes the same branch as for a table with no
duplicates — no removal step runs and the table is untouched — and the
run proceeds to the next configured section. -/
theorem detection_error_skips_table (t : Table) (failAt : Option Nat)
    (rest : List RemoverSection) :
    check_for_duplicates true t = none ∧
    remover_process_section true failAt t = ⟨t, none, false, false⟩ ∧
    removerRun (⟨t, true, failAt⟩ :: rest) =
      ⟨t, none, false, false⟩ :: removerRun rest :=
  ⟨rfl, rfl, rfl⟩

/-- C5: for a table whose only duplicated unique-key value `k` appears
`K > 1` times while every other present key appears at most once, the
removal sequence leaves exactly one row with key `k` — the retained row
having the lowest `dateCreated` among the key's rows — and the total row
count decreases by exactly `K - 1`. -/
theorem single_dup_key_removal (t : Table) (k K : Nat)
    (hK : keyCount t k = K) (h1 : 1 < K)
    (hOther : ∀ k' ∈ t.map Row.key, k' ≠ k → keyCount t k' ≤ 1) :
    keyCount (removeResult t) k = 1 ∧
    (∃ r, (removeResult t).filter (fun q => decide (q.key = k)) = [r] ∧ r ∈ t ∧
      r.key = k ∧ ∀ q ∈ t, q.key = k → r.dateCreated ≤ q.dateCreated) ∧
    (removeResult t).length + (K - 1) = t.length := by
  have hdup : 1 < keyCount t k := by rw [hK]; exact h1
  refine ⟨keyCount_removeResult_dup hdup, ?_, ?_⟩
  · rcases removeResult_filter_dup hdup with ⟨r, _, hmem, hrk, hmin, hfil⟩
    exact ⟨r, hfil, hmem, hrk, hmin⟩
  · have hlen : (removeResult t).length =
        (delete_step t (step1_side t)).length + (step1_side t).length := by
      unfold removeResult reinsert_step
      rw [List.length_append, List.length_map]
    have hside1 : (step1_side t).length = 1 := by
      rw [step1_side_length]
      have hdk : dupKeys t = [k] := by
        apply eq_singleton_of_nodup_mem (nodup_dupKeys t)
        intro x
        rw [mem_dupKeys]
        constructor
        · intro hx
          by_contra hne
          have hpos : 0 < keyCount t x := by omega
          rcases (keyCount_pos_iff t x).mp hpos with ⟨r, hrmem, hrk⟩
          have := hOther x (List.mem_map.mpr ⟨r, hrmem, hrk⟩) hne
          omega
        · intro hx
          rw [hx]
          exact hdup
      rw [hdk]
      rfl
    have hdel : (delete_step t (step1_side t)).length + K = t.length := by
      rw [delete_step_side]
      have heq : (t.filter fun r => !(decide (keyCount t r.key ≤ 1))) =
          t.filter fun r => decide (r.key = k) := by
        apply List.filter_congr
        intro r hrmem
        by_cases hk : r.key = k
        · have hgt : ¬keyCount t r.key ≤ 1 := by rw [hk]; omega
          simp [hk, hgt]
          exact hdup
        · have hle : keyCount t r.key ≤ 1 :=
            hOther r.key (List.mem_map.mpr ⟨r, hrmem, rfl⟩) hk
          simp [hk, hle]
      have hsplit := length_filter_add (fun r => decide (keyCount t r.key ≤ 1)) t
      rw [heq] at hsplit
      have hcnt : (t.filter fun r => decide (r.key = k)).length = K := hK
      rw [hcnt] at hsplit
      exact hsplit
    omega

/-- C5 witness: on `exKTable`, whose key 9 appears `K = 3` times and whose
key 4 appears once, removal keeps one earliest-date row for key 9 and
shrinks the table by 2 rows. -/
theorem single_dup_key_removal_witness :
    keyCount (removeResult exKTable) 9 = 1 ∧
    (∃ r, (removeResult exKTable).filter (fun q => decide (q.key = 9)) = [r] ∧
      r ∈ exKTable ∧ r.key = 9 ∧
      ∀ q ∈ exKTable, q.key = 9 → r.dateCreated ≤ q.dateCreated) ∧
    (removeResult exKTable).length + (3 - 1) = exKTable.length :=
  single_dup_key_removal exKTable 9 3 (by decide) (by decide) (by decide)

/-- C3 counterexample: in the checker entry point a detection failure is
not caught at the table-iteration boundary — with a failing first section
followed by a healthy second section, the run produces no per-table
results at all (the run-level handler fires), while the healthy section
alone would have produced one. -/
theorem checker_abort_on_table_error :
    (checkerRun [⟨exConfig, exDupTable, true, false⟩,
      ⟨exConfig, exDupTable, false, false⟩]).1 = [] ∧
    (checkerRun [⟨exConfig, exDupTable, true, false⟩,
      ⟨exConfig, exDupTable, false, false⟩]).2 = true ∧
    (checkerRun [⟨exConfig, exDupTable, false, false⟩]).1.length = 1 :=
  ⟨rfl, rfl, rfl⟩

/-- C3 (amended): in the remover entry point every per-table failure
(detection or removal-step) is caught inside the per-table helpers, so
every configured section is processed whatever the failures; in the
checker entry point the loop processes every section only when no
section's detection query fails — alert-delivery failures are caught per
alert and never stop the loop — while a detection failure aborts the
remaining sections. -/
theorem per_table_error_isolation (rss : List RemoverSection)
    (css : List CheckerSection) (h : ∀ s ∈ css, s.detectFail = false) :
    (removerRun rss).length = rss.length ∧
    (checkerRun css).1.length = css.length := by
  constructor
  · induction rss with
    | nil => rfl
    | cons s rest ih =>
      rw [removerRun, List.length_cons, List.length_cons, ih]
  · induction css with
    | nil => rfl
    | cons s rest ih =>
      have hs : s.detectFail = false := h s (List.mem_cons_self s rest)
      have hrest := ih fun x hx => h x (List.mem_cons_of_mem s hx)
      rw [checkerRun, hs]
      simp only [Bool.false_eq_true, if_false, List.length_cons]
      rw [hrest]

/-- C3 witness: the amended statement instantiated on a remover run with a
failing section and a checker run whose sections all detect cleanly. -/
theorem per_table_error_isolation_witness :
    (removerRun [⟨exDupTable, false, none⟩, ⟨exTable, true, none⟩]).length = 2 ∧
    (checkerRun [⟨exConfig, exDupTable, false, false⟩,
      ⟨exConfig, exCleanTable, false, true⟩]).1.length = 2 :=
  per_table_error_isolation [⟨exDupTable, false, none⟩, ⟨exTable, true, none⟩]
    [⟨exConfig, exDupTable, false, false⟩, ⟨exConfig, exCleanTable, false, true⟩]
    (by decide)

/-- C8 counterexample: the checker dispatches one email and one chat
alert, but the two bodies differ — the email body carries the source
host, replication task, column and total lines while the dispatched chat
body (`"Alert: Duplicates found in db.table:"` plus the summary) carries
none of them, so the claim that the body dispatched by both transports
contains those fields fails. -/
theorem slack_alert_missing_details :
    checkerAlerts exConfig false exDupTable =
      [ Alert.email (emailSubject exConfig)
          (buildAlertBody exConfig (dupQuery exDupTable)) true,
        Alert.slack (slackAlertBody exConfig (dupQuery exDupTable)) true ] ∧
    "Source Host: host1" ∈ buildAlertBody exConfig (dupQuery exDupTable) ∧
    "Source Host: host1" ∉ slackAlertBody exConfig (dupQuery exDupTable) ∧
    "Source Replication Task: task1" ∉ slackAlertBody exConfig (dupQuery exDupTable) ∧
    "Source Column: order_id" ∉ slackAlertBody exConfig (dupQuery exDupTable) ∧
    "Total number of rows = 1" ∉ slackAlertBody exConfig (dupQuery exDupTable) := by
  decide

/-- C8 (amended): when the checker finds duplicate groups in a table, it
dispatches exactly one email and one chat alert; both bodies contain, for
every duplicate count `K` that occurs, one line
`"N row(s) affected: with K duplicates per row"` where `N` is the number
of groups having that count; the email body additionally carries the
source host, replication task, database, table and column, and the total
row count of the duplicate result set. -/
theorem alert_body_contents (cfg : TableConfig) (nf : Bool) (t : Table)
    (h : dupQuery t ≠ []) :
    checkerAlerts cfg nf t =
      [ Alert.email (emailSubject cfg) (buildAlertBody cfg (dupQuery t)) (!nf),
        Alert.slack (slackAlertBody cfg (dupQuery t)) (!nf) ] ∧
    s!"Source Host: {cfg.host}" ∈ buildAlertBody cfg (dupQuery t) ∧
    s!"Source Replication Task: {cfg.replication_task}" ∈ buildAlertBody cfg (dupQuery t) ∧
    s!"Source Database: {cfg.database}" ∈ buildAlertBody cfg (dupQuery t) ∧
    s!"Source Table: {cfg.table}" ∈ buildAlertBody cfg (dupQuery t) ∧
    s!"Source Column: {cfg.unique_key}" ∈ buildAlertBody cfg (dupQuery t) ∧
    s!"Total number of rows = {(dupQuery t).length}" ∈ buildAlertBody cfg (dupQuery t) ∧
    ∀ K, ((dupQuery t).filter fun g => decide (g.2.2 = K)) ≠ [] →
      affectedLine ((dupQuery t).filter fun g => decide (g.2.2 = K)).length K ∈
        buildAlertBody cfg (dupQuery t) ∧
      affectedLine ((dupQuery t).filter fun g => decide (g.2.2 = K)).length K ∈
        slackAlertBody cfg (dupQuery t) := by
  refine ⟨?_, ?_, ?_, ?_, ?_, ?_, ?_, ?_⟩
  · unfold checkerAlerts
    rw [if_neg h]
  · simp [buildAlertBody]
  · simp [buildAlertBody]
  · simp [buildAlertBody]
  · simp [buildAlertBody]
  · simp [buildAlertBody]
  · simp [buildAlertBody]
  · intro K hKne
    have hkeys : keysFor K (dupQuery t) ≠ [] := by
      unfold keysFor
      intro hmap
      exact hKne (List.map_eq_nil_iff.mp hmap)
    have hlen : (keysFor K (dupQuery t)).length =
        ((dupQuery t).filter fun g => decide (g.2.2 = K)).length := by
      unfold keysFor
      rw [List.length_map]
    have hline := affectedLine_mem_print cfg.database cfg.table hkeys
    rw [hlen] at hline
    constructor
    · unfold buildAlertBody
      exact List.mem_append_right _ hline
    · unfold slackAlertBody
      exact List.mem_cons_of_mem _ hline

/-- C8 witness: on `exDupTable` the checker dispatches the email/chat pair
and its body carries the summary line for duplicate count 2. -/
theorem alert_body_contents_witness :
    checkerAlerts exConfig false exDupTable =
      [ Alert.email (emailSubject exConfig)
          (buildAlertBody exConfig (dupQuery exDupTable)) true,
        Alert.slack (slackAlertBody exConfig (dupQuery exDupTable)) true ] ∧
    affectedLine ((dupQuery exDupTable).filter fun g => decide (g.2.2 = 2)).length 2 ∈
      buildAlertBody exConfig (dupQuery exDupTable) := by
  have h := alert_body_contents exConfig false exDupTable (by decide)
  obtain ⟨ha, _, _, _, _, _, _, hK⟩ := h
  exact ⟨ha, (hK 2 (by decide)).1⟩

/-- C9 counterexample: the checker's source contains no `conn.close()`
call on any path — its only cleanup is the `with` block's exit handler,
which in the database client used ends the transaction without closing
the connection — so the connection is not closed at run end in the
checker entry point. -/
theorem checker_never_closes_connection :
    Ev.closeConn ∉ checker_run_events false false ∧
    Ev.closeConn ∉ checker_run_events false true ∧
    Ev.ctxExit ∈ checker_run_events false false := by
  decide

/-- C9 (amended): in both entry points the connection is opened at most
once per run, and exactly once when the connect call succeeds; in the
remover the `finally` block closes it as the last event on every path
where it was opened, while in the checker every such path ends with the
`with` block's exit handler and never with an explicit close. -/
theorem connection_lifecycle (br : Bool) :
    openCount (remover_run_events true br) = 0 ∧
    openCount (checker_run_events true br) = 0 ∧
    openCount (remover_run_events false br) = 1 ∧
    (remover_run_events false br).getLast? = some Ev.closeConn ∧
    openCount (checker_run_events false br) = 1 ∧
    (checker_run_events false br).getLast? = some Ev.ctxExit ∧
    Ev.closeConn ∉ checker_run_events false br := by
  cases br <;> decide
